import Mathlib

/-!
# Verification of the container-use environment core and logging setup

This development shallowly embeds the `container-use` repository:

* `log.go` (`parseLogLevel`, `setupLogger`) is embedded directly from the
  source.
* The environment core (`environment.go`, `git.go`, `filesystem.go`) is not
  part of the provided sources (only its tests, README and callers are), so
  the state machine over (branch, worktree, container) triples is modelled
  from the specification: host directories, per-environment container file
  systems, branch commit logs, mirror/source branch lists and the in-memory
  registry are explicit fields of a `SysState`, and the agent-facing
  operations (`Create`, `FileWrite`, `FileRead`, `Run`, `SetEnv`, `Update`,
  `Upload`, `Delete`) are executable functions on it.
-/

namespace ContainerUse

/-! ## Association lists

Finite string-keyed maps are represented as association lists where lookup
returns the first matching entry.  `insertL` shadows, `eraseL` removes every
entry with the given key. -/

def lookupL {α : Type} (k : String) : List (String × α) → Option α
  | [] => none
  | (k', v) :: rest => if k' = k then some v else lookupL k rest

def eraseL {α : Type} (k : String) : List (String × α) → List (String × α)
  | [] => []
  | (k', v) :: rest => if k' = k then eraseL k rest else (k', v) :: eraseL k rest

def insertL {α : Type} (k : String) (v : α) (l : List (String × α)) :
    List (String × α) :=
  (k, v) :: eraseL k l

theorem lookupL_insertL_self {α : Type} (k : String) (v : α)
    (l : List (String × α)) : lookupL k (insertL k v l) = some v := by
  simp [insertL, lookupL]

theorem lookupL_insertL_ne {α : Type} {k k' : String} (v : α)
    (l : List (String × α)) (h : k ≠ k') :
    lookupL k' (insertL k v l) = lookupL k' l := by
  simp only [insertL, lookupL, if_neg h]
  induction l with
  | nil => rfl
  | cons p rest ih =>
    obtain ⟨k₂, v₂⟩ := p
    by_cases h₂ : k₂ = k
    · simp [eraseL, lookupL, h₂, if_neg h, ih]
    · simp only [eraseL, if_neg h₂, lookupL]
      by_cases h₃ : k₂ = k'
      · simp [h₃]
      · simp [if_neg h₃, ih]

theorem lookupL_eraseL_self {α : Type} (k : String) (l : List (String × α)) :
    lookupL k (eraseL k l) = none := by
  induction l with
  | nil => rfl
  | cons p rest ih =>
    obtain ⟨k₂, v₂⟩ := p
    by_cases h₂ : k₂ = k
    · simp [eraseL, h₂, ih]
    · simp [eraseL, if_neg h₂, lookupL, h₂, ih]

theorem lookupL_eraseL_ne {α : Type} {k k' : String} (l : List (String × α))
    (h : k ≠ k') : lookupL k' (eraseL k l) = lookupL k' l := by
  induction l with
  | nil => rfl
  | cons p rest ih =>
    obtain ⟨k₂, v₂⟩ := p
    by_cases h₂ : k₂ = k
    · subst h₂
      simp [eraseL, lookupL, if_neg h, ih]
    · simp only [eraseL, if_neg h₂, lookupL]
      by_cases h₃ : k₂ = k'
      · simp [h₃]
      · simp [if_neg h₃, ih]

theorem lookupL_mem {α : Type} {k : String} {v : α} {l : List (String × α)}
    (h : lookupL k l = some v) : (k, v) ∈ l := by
  induction l with
  | nil => simp [lookupL] at h
  | cons p rest ih =>
    obtain ⟨k₂, v₂⟩ := p
    by_cases h₂ : k₂ = k
    · subst h₂
      simp [lookupL] at h
      simp [h]
    · simp only [lookupL, if_neg h₂] at h
      exact List.mem_cons_of_mem _ (ih h)

/-! ## Embedding of `log.go`

`parseLogLevel` and `setupLogger` are translated from `src/log.go`.  The
`slog` levels are modelled as an inductive type (`LevelDebug = -4`,
`LevelInfo = 0`, `LevelWarn = 4`, `LevelError = 8` in Go); the
`io.MultiWriter` over `writers` is modelled as the list of sinks the
installed handler writes to. -/

inductive LogLevel where
  | debug | info | warn | error
  deriving DecidableEq, Repr

/-- Embeds `parseLogLevel` from `src/log.go`: a `switch` on the
literal strings with default `slog.LevelInfo`. -/
def parseLogLevel (levelStr : String) : LogLevel :=
  if levelStr = "debug" ∨ levelStr = "DEBUG" then .debug
  else if levelStr = "info" ∨ levelStr = "INFO" then .info
  else if levelStr = "warn" ∨ levelStr = "WARN" ∨ levelStr = "warning" ∨
      levelStr = "WARNING" then .warn
  else if levelStr = "error" ∨ levelStr = "ERROR" then .error
  else .info

/-- A sink of the installed `slog` handler: `os.Stderr` or an opened file. -/
inductive Sink where
  | stderr
  | file (path : String)
  deriving DecidableEq, Repr

structure Logger where
  sinks : List Sink
  level : LogLevel
  deriving DecidableEq, Repr

/-- Embeds `setupLogger` from `src/log.go`.  `getenv` models `os.Getenv`
(returning `""` for unset variables) and `openAppend` models whether
`os.OpenFile(path, O_CREATE|O_WRONLY|O_APPEND, 0644)` succeeds.  The result
is the logger installed by `slog.SetDefault` paired with the returned error;
on error the function returns before `SetDefault`, so the current default
logger is unchanged. -/
def setupLogger (getenv : String → String) (openAppend : String → Bool)
    (current : Logger) : Logger × Option String :=
  let logFile := getenv "CU_STDERR_FILE"
  if logFile ≠ "" ∧ ¬ openAppend logFile then
    (current, some ("failed to open log file " ++ logFile))
  else
    let writers := if logFile ≠ "" then [Sink.stderr, Sink.file logFile]
      else [Sink.stderr]
    ({ sinks := writers, level := parseLogLevel (getenv "CU_LOG_LEVEL") }, none)

/-! ## Data model of the environment core

Modelled from the spec: the files `environment.go`, `git.go` and
`filesystem.go` are not among the provided sources (only their tests and
the package README are), so the data model of §3 is embedded from the
specification text.  A host directory is a finite map from relative path to
`File`; `SysState` carries the host directories (source repos, worktrees
and upload sources), the in-memory registry (§4.5), the environment-branch
lists of each source repo and of its mirror (§4.2), and the freshness
counter indexing the supply of random id suffixes. -/

structure File where
  content : String
  binary : Bool
  deriving DecidableEq, Repr

abbrev DirContents := List (String × File)

/-- A commit on an environment branch: message head `name`, message body
`explanation`, and the staged (path, contents) changes it records. -/
structure Commit where
  name : String
  explanation : String
  changes : List (String × String)
  deriving DecidableEq, Repr

/-- Modelled from the spec (§3): an environment record.  `sfx` is the index
of the environment's random suffix in the suffix supply; `containerFS` maps
container paths (workdir-relative or absolute) to files; `headTree` is the
tracked text tree at the branch tip; `branchLog` is the branch's commit
list, newest first. -/
structure Environment where
  id : String
  sfx : Nat
  name : String
  explanation : String
  source : String
  worktree : String
  baseImage : String
  setupCommands : List String
  envVars : List String
  containerFS : List (String × File)
  containerEnv : List String
  headTree : List (String × String)
  branchLog : List Commit
  history : List String
  deriving DecidableEq, Repr

/-- Modelled from the spec (§2, §4.5, §6): the whole observable state. -/
structure SysState where
  dirs : List (String × DirContents)
  registry : List (String × Environment)
  sourceBranches : List (String × List String)
  mirrorBranches : List (String × List String)
  counter : Nat
  deriving DecidableEq, Repr

def SysState.dirFiles (st : SysState) (d : String) : DirContents :=
  (lookupL d st.dirs).getD []

/-- Models `Get(ID)`: the registry lookup (§4.5); `none` models Go `nil`. -/
def Get (st : SysState) (id : String) : Option Environment :=
  lookupL id st.registry

def configDir : String := "~/.config/container-use"

/-- Modelled from the spec (§3): the random adjective-noun suffix supply is
modelled as an injective sequence of words indexed by the freshness
counter; none of its characters is a path separator. -/
def sfxString (k : Nat) : String := String.mk ('w' :: List.replicate k 'o')

/-- Modelled from the spec (§3): name sanitization is modelled as the
identity, the claims only exercise already-clean names. -/
def slugOf (name : String) : String := name

/-- Models `GetWorktreePath` (§4.2): `<config_dir>/worktrees/<project>/<ID>`; the
project namespace is modelled by the source path itself. -/
def wtPath (source id : String) : String :=
  configDir ++ "/worktrees/" ++ source ++ "/" ++ id

/-! ## Git plumbing (§4.1)

Modelled from the spec: `addNonBinary` stages every non-binary regular
file of the worktree (binary files stay untracked, directories are never
staged, so binary-only directories stay untracked while text files inside
otherwise-binary directories are staged); `commitWorktreeChanges` commits
exactly when the staged status is nonempty. -/

/-- The list of (path, contents) pairs `addNonBinaryFiles` stages: every
regular file of the worktree that is not binary. -/
def addNonBinaryFiles (wt : DirContents) : List (String × String) :=
  wt.filterMap fun pf => if pf.2.binary then none else some (pf.1, pf.2.content)

/-- The staged entries that differ from the committed tree at HEAD. -/
def stagedChanges (wt : DirContents) (head : List (String × String)) :
    List (String × String) :=
  (addNonBinaryFiles wt).filter fun pc =>
    decide (lookupL pc.1 head ≠ some pc.2)

/-- The text files of a worktree, i.e. the tracked tree after committing. -/
def textFiles (wt : DirContents) : List (String × String) :=
  addNonBinaryFiles wt

/-- Models `git status --porcelain` after `addNonBinaryFiles`: one `A ` (new) or
`M ` (modified) line per staged change, one `?? ` line per untracked
binary file. -/
def statusLines (wt : DirContents) (head : List (String × String)) :
    List String :=
  (stagedChanges wt head).map
    (fun pc => (if lookupL pc.1 head = none then "A  " else "M  ") ++ pc.1)
  ++ wt.filterMap (fun pf =>
      if pf.2.binary ∧ lookupL pf.1 head = none then some ("?? " ++ pf.1)
      else none)

/-- Whether a porcelain pattern occurs in the status (at the start of a
line, which is where every pattern of the tests occurs). -/
def statusHas (lines : List String) (pat : String) : Bool :=
  lines.any fun l => pat.data.isPrefixOf l.data

/-- Models `commitWorktreeChanges` (§4.1 `commitIfDirty`): stage with
`addNonBinaryFiles`, then query the status; if no staged change, return
with no commit and no error; otherwise record a commit whose changes are
the staged entries, and advance HEAD to the worktree's text files. -/
def commitWorktreeChanges (e : Environment) (wt : DirContents)
    (name explanation : String) : Environment :=
  let changes := stagedChanges wt e.headTree
  if changes = [] then e
  else { e with branchLog := ⟨name, explanation, changes⟩ :: e.branchLog,
                headTree := textFiles wt }

/-! ## Container engine commands

`Run` is modelled for the two command shapes the claims exercise: running
a one-line `echo` shell script from the container filesystem, and echoing
an exported environment variable. -/

inductive Cmd where
  | shScript (path : String)
  | echoVar (name : String)
  deriving DecidableEq, Repr

def Cmd.text : Cmd → String
  | .shScript p => "sh " ++ p
  | .echoVar v => "echo $" ++ v

/-- Interpret a one-line `echo <text>` script: its output is `<text>`. -/
def interpScript (c : String) : String :=
  if ("echo ".data).isPrefixOf c.data then String.mk (c.data.drop 5) else ""

/-- First binding of `v` in a `KEY=VALUE` list, as the shell would see it. -/
def envLookup (v : String) : List String → Option String
  | [] => none
  | s :: rest =>
      if (v ++ "=").data.isPrefixOf s.data then
        some (String.mk (s.data.drop (v.length + 1)))
      else envLookup v rest

/-- Execute a command inside the environment's container (§4.3 `Exec`). -/
def execCmd (e : Environment) : Cmd → String
  | .shScript p =>
      match lookupL p e.containerFS with
      | some f => interpScript f.content
      | none => "sh: " ++ p ++ ": not found"
  | .echoVar v => (envLookup v e.containerEnv).getD ""

def isAbsolute (p : String) : Bool := p.data.head? == some '/'

/-- Models `Export` (§4.3): copy the container's `/workdir` (the non-absolute
container paths) back over the worktree. -/
def exportWorkdir (cfs : DirContents) (wt : DirContents) : DirContents :=
  cfs.foldr (fun pf acc => if isAbsolute pf.1 then acc else insertL pf.1 pf.2 acc)
    wt

/-! ## Agent-facing operations (§4.4)

Modelled from the spec.  Every operation that takes a host directory as
input (`Create`, `Update`, `Upload`) reads it from `SysState.dirs` at call
time — the §4.3 caching contract: no memoized directory reference is ever
reused. -/

def defaultImage : String := "ubuntu:latest"

/-- Candidate-id search of `Create` step 1: try suffix `k`, retry on the
near-impossible collision with an already-used id. -/
def genId (name : String) (used : List String) : Nat → Nat → Option (String × Nat)
  | 0, _ => none
  | fuel + 1, k =>
      let id := slugOf name ++ "/" ++ sfxString k
      if id ∈ used then genId name used fuel (k + 1) else some (id, k)

/-- The ids `Create` must avoid: registered environments plus the
environment branches of the mirror and of the source repo. -/
def usedIds (st : SysState) (source : String) : List String :=
  st.registry.map Prod.fst ++ (lookupL source st.mirrorBranches).getD []
    ++ (lookupL source st.sourceBranches).getD []

/-- Models `Create` (§4.4): allocate a fresh `<slug>/<suffix>` id, create the
branch in mirror and source repo, materialize the worktree from the source
repo's current contents, build and start the container with the worktree
copied to `/workdir`, commit the initial snapshot (no commit when there is
nothing to stage), and register the environment. -/
def Create (st : SysState) (explanation source name : String) :
    Except String (Environment × SysState) :=
  let used := usedIds st source
  match genId name used (used.length + 1) st.counter with
  | none => .error "could not allocate a fresh environment id"
  | some (id, k) =>
      let wt := wtPath source id
      let srcFiles := st.dirFiles source
      let e0 : Environment :=
        { id := id, sfx := k, name := name, explanation := explanation,
          source := source, worktree := wt,
          baseImage := defaultImage, setupCommands := [], envVars := [],
          containerFS := srcFiles, containerEnv := [],
          headTree := [], branchLog := [], history := [] }
      let e1 := commitWorktreeChanges e0 srcFiles "Initial commit" explanation
      .ok (e1,
        { st with
          dirs := insertL wt srcFiles st.dirs,
          registry := insertL id e1 st.registry,
          sourceBranches := insertL source
            (id :: (lookupL source st.sourceBranches).getD []) st.sourceBranches,
          mirrorBranches := insertL source
            (id :: (lookupL source st.mirrorBranches).getD []) st.mirrorBranches,
          counter := k + 1 })

/-- Models `FileRead` (§4.3 `Read`, §6): bytes `offset`/`limit` window (0 limit
means to the end); `textMode` trims trailing line endings.  `NotFound` on a
missing path. -/
def readWindow (s : String) (offset limit : Nat) : String :=
  let l := s.data.drop offset
  String.mk (if limit = 0 then l else l.take limit)

def isNL (c : Char) : Bool := c == '\n' || c == '\r'

def stripTrailingNewlines (s : String) : String :=
  String.mk ((s.data.reverse.dropWhile isNL).reverse)

def FileRead (st : SysState) (id path : String) (textMode : Bool)
    (offset limit : Nat) : Except String String :=
  match Get st id with
  | none => .error "environment not found"
  | some e =>
      match lookupL path e.containerFS with
      | none => .error ("NotFound: " ++ path)
      | some f =>
          let c := readWindow f.content offset limit
          .ok (if textMode then stripTrailingNewlines c else c)

/-- Models `FileWrite` (§4.4): write into the container, mirror the write to the
worktree on the host, stage and commit as `Write <path>`, append history. -/
def FileWrite (st : SysState) (id explanation path contents : String) :
    Except String SysState :=
  match Get st id with
  | none => .error "environment not found"
  | some e =>
      let eW := { e with containerFS := insertL path ⟨contents, false⟩ e.containerFS }
      let wt := insertL path ⟨contents, false⟩ (st.dirFiles eW.worktree)
      let eC := commitWorktreeChanges eW wt ("Write " ++ path) explanation
      let eH := { eC with history := eC.history ++ ["Write " ++ path] }
      .ok { st with dirs := insertL eH.worktree wt st.dirs,
                    registry := insertL id eH st.registry }

/-- Models `Run` (§4.4): exec in the container capturing output, export `/workdir`
back to the worktree, stage and commit as `Run <command>`, append
history. -/
def Run (st : SysState) (id explanation : String) (cmd : Cmd) :
    Except String (String × SysState) :=
  match Get st id with
  | none => .error "environment not found"
  | some e =>
      let out := execCmd e cmd
      let wt := exportWorkdir e.containerFS (st.dirFiles e.worktree)
      let eC := commitWorktreeChanges e wt ("Run " ++ cmd.text) explanation
      let eH := { eC with history := eC.history ++ ["Run " ++ cmd.text] }
      .ok (out, { st with dirs := insertL eH.worktree wt st.dirs,
                          registry := insertL id eH st.registry })

/-- Models `SetEnv` (§4.4): replace the env list, update the running container's
exported variables, commit `Set env`, append history. -/
def SetEnv (st : SysState) (id explanation : String) (vars : List String) :
    Except String SysState :=
  match Get st id with
  | none => .error "environment not found"
  | some e =>
      let eV := { e with envVars := vars, containerEnv := vars }
      let eC := commitWorktreeChanges eV (st.dirFiles eV.worktree) "Set env"
        explanation
      let eH := { eC with history := eC.history ++ ["Set env"] }
      .ok { st with registry := insertL id eH st.registry }

/-- Models `Update` (§4.4): `none` arguments mean keep the current value; rebuild
the container from the new configuration and the worktree snapshot taken at
this call (§4.3 caching contract), exporting the environment variables into
the new container; commit `Update environment`, append history. -/
def Update (st : SysState) (id _name explanation : String)
    (baseImage : Option String) (setupCommands : Option (List String))
    (env : Option (List String)) : Except String SysState :=
  match Get st id with
  | none => .error "environment not found"
  | some e =>
      let eU := { e with
        baseImage := baseImage.getD e.baseImage,
        setupCommands := setupCommands.getD e.setupCommands,
        envVars := match env with | none => e.envVars | some l => l }
      let wt := st.dirFiles eU.worktree
      let eR := { eU with containerFS := wt, containerEnv := eU.envVars }
      let eC := commitWorktreeChanges eR wt "Update environment" explanation
      let eH := { eC with history := eC.history ++ ["Update environment"] }
      .ok { st with registry := insertL id eH st.registry }

/-- Models `Upload` (§4.4): snapshot the host directory at call time and copy its
files into the container below `destPath`; append history.  Fails with an
IO error when the source directory does not exist. -/
def Upload (st : SysState) (id _explanation sourceDir destPath : String) :
    Except String SysState :=
  match Get st id with
  | none => .error "environment not found"
  | some e =>
      match lookupL sourceDir st.dirs with
      | none => .error ("no such file or directory: " ++ sourceDir)
      | some files =>
          let cfs := files.foldr
            (fun pf acc => insertL (destPath ++ "/" ++ pf.1) pf.2 acc)
            e.containerFS
          let eU := { e with containerFS := cfs }
          let eH := { eU with history :=
            eU.history ++ ["Upload " ++ sourceDir ++ " -> " ++ destPath] }
          .ok { st with registry := insertL id eH st.registry }

/-- Models `Delete` (§4.4): remove the container and the worktree directory,
delete the branch from the source repo — the mirror's branch is retained —
and deregister the environment. -/
def Delete (st : SysState) (id : String) : Except String SysState :=
  match Get st id with
  | none => .error "environment not found"
  | some e =>
      .ok { st with
        dirs := eraseL e.worktree st.dirs,
        registry := eraseL id st.registry,
        sourceBranches := insertL e.source
          (((lookupL e.source st.sourceBranches).getD []).filter
            (fun b => decide (b ≠ id))) st.sourceBranches }

/-! ## Operation words and runs -/

/-- One step of the system: an agent operation, a session restart (the
in-memory registry is dropped, disk and Git state persist), or an external
host mutation (the test harness writing files or creating directories). -/
inductive Op where
  | create (explanation source name : String)
  | fileWrite (id explanation path contents : String)
  | run (id explanation : String) (cmd : Cmd)
  | setEnv (id explanation : String) (vars : List String)
  | update (id name explanation : String) (baseImage : Option String)
      (setupCommands : Option (List String)) (env : Option (List String))
  | upload (id explanation src dest : String)
  | delete (id : String)
  | sessionRestart
  | hostWrite (dir rel : String) (f : File)
  | hostMkdir (dir : String)
  deriving DecidableEq, Repr

def keepOnError (r : Except String SysState) (st : SysState) : SysState :=
  match r with
  | .ok st' => st'
  | .error _ => st

def step (st : SysState) : Op → SysState
  | .create ex src n =>
      match Create st ex src n with
      | .ok (_, st') => st'
      | .error _ => st
  | .fileWrite id ex p c => keepOnError (FileWrite st id ex p c) st
  | .run id ex cmd =>
      match Run st id ex cmd with
      | .ok (_, st') => st'
      | .error _ => st
  | .setEnv id ex vars => keepOnError (SetEnv st id ex vars) st
  | .update id n ex b s v => keepOnError (Update st id n ex b s v) st
  | .upload id ex src dest => keepOnError (Upload st id ex src dest) st
  | .delete id => keepOnError (Delete st id) st
  | .sessionRestart => { st with registry := [] }
  | .hostWrite dir rel f =>
      { st with dirs := insertL dir (insertL rel f (st.dirFiles dir)) st.dirs }
  | .hostMkdir dir =>
      { st with dirs := match lookupL dir st.dirs with
          | some _ => st.dirs
          | none => insertL dir [] st.dirs }

def runOps (st : SysState) (ops : List Op) : SysState := ops.foldl step st

def initState : SysState :=
  { dirs := [], registry := [], sourceBranches := [], mirrorBranches := [],
    counter := 0 }

/-! ## String lemmas for id freshness

An environment id is `<slug>/<suffix>` where the suffix contains no `/`;
the suffix is therefore the segment after the last `/` of the id, which
makes the suffix index recoverable from the id string. -/

theorem strMk_data (s : String) : String.mk s.data = s := rfl

theorem strAppend_cancel_left {a b c : String} (h : a ++ b = a ++ c) :
    b = c := by
  have h' := congrArg String.data h
  rw [String.data_append, String.data_append] at h'
  exact String.ext (List.append_cancel_left h')

theorem takeWhile_append_all {p : Char → Bool} (a : List Char) (c : Char)
    (b : List Char) (ha : ∀ x ∈ a, p x = true) (hc : p c = false) :
    List.takeWhile p (a ++ c :: b) = a := by
  induction a with
  | nil => simp [List.takeWhile_cons, hc]
  | cons x xs ih =>
    have hx := ha x (List.mem_cons_self x xs)
    simp only [List.cons_append, List.takeWhile_cons, hx, if_pos]
    rw [ih fun y hy => ha y (List.mem_cons_of_mem x hy)]

/-- The characters after the last `/` of a character list. -/
def lastSeg (l : List Char) : List Char :=
  (l.reverse.takeWhile fun c => c != '/').reverse

theorem lastSeg_append (nm s : List Char)
    (hs : ∀ c ∈ s, (c != '/') = true) : lastSeg (nm ++ '/' :: s) = s := by
  unfold lastSeg
  rw [List.reverse_append, List.reverse_cons, List.append_assoc,
    List.singleton_append,
    takeWhile_append_all s.reverse '/' nm.reverse
      (fun c hc => hs c (List.mem_reverse.mp hc)) (by decide),
    List.reverse_reverse]

theorem sfxString_data (k : Nat) :
    (sfxString k).data = 'w' :: List.replicate k 'o' := rfl

theorem sfxString_no_slash (k : Nat) :
    ∀ c ∈ (sfxString k).data, (c != '/') = true := by
  intro c hc
  rw [sfxString_data] at hc
  rcases List.mem_cons.mp hc with h | h
  · subst h; decide
  · rw [List.eq_of_mem_replicate h]; decide

theorem sfxString_data_inj {k₁ k₂ : Nat}
    (h : (sfxString k₁).data = (sfxString k₂).data) : k₁ = k₂ := by
  rw [sfxString_data, sfxString_data] at h
  have h' := List.tail_eq_of_cons_eq h
  have := congrArg List.length h'
  simpa using this

theorem slash_data : ("/" : String).data = ['/'] := rfl

theorem idString_data (nm : String) (k : Nat) :
    (nm ++ "/" ++ sfxString k).data = nm.data ++ '/' :: (sfxString k).data := by
  rw [String.data_append, String.data_append, slash_data, List.append_assoc,
    List.singleton_append]

/-- Two `<slug>/<suffix>` ids agree only when their suffix indices do. -/
theorem idSplit {nm₁ nm₂ : String} {k₁ k₂ : Nat}
    (h : nm₁ ++ "/" ++ sfxString k₁ = nm₂ ++ "/" ++ sfxString k₂) : k₁ = k₂ := by
  have h' := congrArg String.data h
  rw [idString_data, idString_data] at h'
  have h₁ := lastSeg_append nm₁.data (sfxString k₁).data (sfxString_no_slash k₁)
  have h₂ := lastSeg_append nm₂.data (sfxString k₂).data (sfxString_no_slash k₂)
  exact sfxString_data_inj (by rw [← h₁, ← h₂, h'])

/-! ## Freshness invariant -/

/-- Says that `s` is an id of the form `<slug>/<suffix j>` with `j` below `bound`. -/
def IdShaped (s : String) (bound : Nat) : Prop :=
  ∃ nm j, j < bound ∧ s = nm ++ "/" ++ sfxString j

theorem IdShaped.mono {s : String} {b b' : Nat} (hb : b ≤ b')
    (h : IdShaped s b) : IdShaped s b' := by
  obtain ⟨nm, j, hj, rfl⟩ := h
  exact ⟨nm, j, lt_of_lt_of_le hj hb, rfl⟩

theorem IdShaped.ne_candidate {s nm : String} {bound k : Nat}
    (h : IdShaped s bound) (hk : bound ≤ k) : s ≠ nm ++ "/" ++ sfxString k := by
  obtain ⟨nm', j, hj, rfl⟩ := h
  intro heq
  have := idSplit heq
  omega

/-- Every id the system has handed out — registered environments and
environment branches of source repos and mirrors — carries a suffix index
below the freshness counter. -/
def IdsOk (st : SysState) : Prop :=
  (∀ p ∈ st.registry, IdShaped p.1 st.counter) ∧
  (∀ q ∈ st.mirrorBranches, ∀ b ∈ q.2, IdShaped b st.counter) ∧
  (∀ q ∈ st.sourceBranches, ∀ b ∈ q.2, IdShaped b st.counter)

theorem eraseL_subset {α : Type} (k : String) (l : List (String × α)) :
    ∀ p ∈ eraseL k l, p ∈ l := by
  induction l with
  | nil => intro p hp; simp [eraseL] at hp
  | cons q rest ih =>
    obtain ⟨k₂, v₂⟩ := q
    intro p hp
    by_cases h₂ : k₂ = k
    · simp only [eraseL, if_pos h₂] at hp
      exact List.mem_cons_of_mem _ (ih p hp)
    · simp only [eraseL, if_neg h₂] at hp
      rcases List.mem_cons.mp hp with h | h
      · exact h ▸ List.mem_cons_self _ _
      · exact List.mem_cons_of_mem _ (ih p h)

theorem usedIds_shaped {st : SysState} (h : IdsOk st) (source : String) :
    ∀ s ∈ usedIds st source, IdShaped s st.counter := by
  intro s hs
  obtain ⟨hreg, hmir, hsrc⟩ := h
  rcases List.mem_append.mp hs with hs | hs
  · rcases List.mem_append.mp hs with hs | hs
    · obtain ⟨p, hp, rfl⟩ := List.mem_map.mp hs
      exact hreg p hp
    · cases hmb : lookupL source st.mirrorBranches with
      | none => rw [hmb] at hs; simp at hs
      | some l =>
        rw [hmb] at hs
        exact hmir (source, l) (lookupL_mem hmb) s hs
  · cases hsb : lookupL source st.sourceBranches with
    | none => rw [hsb] at hs; simp at hs
    | some l =>
      rw [hsb] at hs
      exact hsrc (source, l) (lookupL_mem hsb) s hs

theorem genId_some_spec {name : String} {used : List String} :
    ∀ {fuel k0 id k}, genId name used fuel k0 = some (id, k) →
      k0 ≤ k ∧ id = slugOf name ++ "/" ++ sfxString k ∧ id ∉ used := by
  intro fuel
  induction fuel with
  | zero => intro k0 id k h; simp [genId] at h
  | succ n ih =>
    intro k0 id k h
    simp only [genId] at h
    split at h
    · obtain ⟨h₁, h₂, h₃⟩ := ih h
      exact ⟨by omega, h₂, h₃⟩
    · rename_i hfree
      obtain ⟨rfl, rfl⟩ := Prod.mk.injEq .. ▸ Option.some.injEq .. ▸ h
      exact ⟨le_refl _, rfl, hfree⟩

theorem genId_first_free {name : String} {used : List String} {k0 : Nat}
    (fuel : Nat) (h : (slugOf name ++ "/" ++ sfxString k0) ∉ used) :
    genId name used (fuel + 1) k0 =
      some (slugOf name ++ "/" ++ sfxString k0, k0) := by
  simp only [genId, if_neg h]

/-! ## Projections of `commitWorktreeChanges`

Committing touches only the branch log and the HEAD tree. -/

theorem cWC_eq_of_empty {e : Environment} {wt : DirContents} {n x : String}
    (h : stagedChanges wt e.headTree = []) :
    commitWorktreeChanges e wt n x = e := by
  simp [commitWorktreeChanges, h]

theorem cWC_branchLog_of_ne {e : Environment} {wt : DirContents} {n x : String}
    (h : stagedChanges wt e.headTree ≠ []) :
    (commitWorktreeChanges e wt n x).branchLog =
      ⟨n, x, stagedChanges wt e.headTree⟩ :: e.branchLog := by
  simp [commitWorktreeChanges, h]

theorem cWC_containerFS (e : Environment) (wt : DirContents) (n x : String) :
    (commitWorktreeChanges e wt n x).containerFS = e.containerFS := by
  simp only [commitWorktreeChanges]
  split <;> rfl

theorem cWC_worktree (e : Environment) (wt : DirContents) (n x : String) :
    (commitWorktreeChanges e wt n x).worktree = e.worktree := by
  simp only [commitWorktreeChanges]
  split <;> rfl

theorem cWC_envVars (e : Environment) (wt : DirContents) (n x : String) :
    (commitWorktreeChanges e wt n x).envVars = e.envVars := by
  simp only [commitWorktreeChanges]
  split <;> rfl

theorem cWC_containerEnv (e : Environment) (wt : DirContents) (n x : String) :
    (commitWorktreeChanges e wt n x).containerEnv = e.containerEnv := by
  simp only [commitWorktreeChanges]
  split <;> rfl

theorem cWC_baseImage (e : Environment) (wt : DirContents) (n x : String) :
    (commitWorktreeChanges e wt n x).baseImage = e.baseImage := by
  simp only [commitWorktreeChanges]
  split <;> rfl

theorem cWC_setupCommands (e : Environment) (wt : DirContents) (n x : String) :
    (commitWorktreeChanges e wt n x).setupCommands = e.setupCommands := by
  simp only [commitWorktreeChanges]
  split <;> rfl

theorem cWC_id (e : Environment) (wt : DirContents) (n x : String) :
    (commitWorktreeChanges e wt n x).id = e.id := by
  simp only [commitWorktreeChanges]
  split <;> rfl

theorem cWC_sfx (e : Environment) (wt : DirContents) (n x : String) :
    (commitWorktreeChanges e wt n x).sfx = e.sfx := by
  simp only [commitWorktreeChanges]
  split <;> rfl

theorem cWC_source (e : Environment) (wt : DirContents) (n x : String) :
    (commitWorktreeChanges e wt n x).source = e.source := by
  simp only [commitWorktreeChanges]
  split <;> rfl

theorem cWC_history (e : Environment) (wt : DirContents) (n x : String) :
    (commitWorktreeChanges e wt n x).history = e.history := by
  simp only [commitWorktreeChanges]
  split <;> rfl

theorem cWC_branchLog_mem {e : Environment} {wt : DirContents} {n x : String} :
    ∀ c ∈ (commitWorktreeChanges e wt n x).branchLog,
      c ∈ e.branchLog ∨ c.changes ≠ [] := by
  intro c hc
  by_cases h : stagedChanges wt e.headTree = []
  · rw [cWC_eq_of_empty h] at hc
    exact Or.inl hc
  · rw [cWC_branchLog_of_ne h] at hc
    rcases List.mem_cons.mp hc with hcs | hcs
    · exact Or.inr (by rw [hcs]; exact h)
    · exact Or.inl hcs

/-! ## Success and effect of `Create` under the freshness invariant -/

theorem create_ok {st : SysState} (h : IdsOk st) (ex src nm : String) :
    ∃ e st', Create st ex src nm = .ok (e, st') ∧
      e.id = slugOf nm ++ "/" ++ sfxString st.counter ∧
      e.sfx = st.counter ∧
      e.worktree = wtPath src e.id ∧
      e.source = src ∧
      st'.counter = st.counter + 1 ∧
      st'.registry = insertL e.id e st.registry ∧
      st'.mirrorBranches = insertL src
        (e.id :: (lookupL src st.mirrorBranches).getD []) st.mirrorBranches ∧
      st'.sourceBranches = insertL src
        (e.id :: (lookupL src st.sourceBranches).getD []) st.sourceBranches ∧
      st'.dirs = insertL e.worktree (st.dirFiles src) st.dirs := by
  have hfree : (slugOf nm ++ "/" ++ sfxString st.counter) ∉ usedIds st src := by
    intro hmem
    exact (usedIds_shaped h src _ hmem).ne_candidate (le_refl _) rfl
  have hgen := genId_first_free (usedIds st src).length hfree
  simp only [Create, hgen]
  exact ⟨_, _, rfl, by simp [cWC_id], by simp [cWC_sfx],
    by simp [cWC_worktree, cWC_id], by simp [cWC_source], rfl,
    by simp [cWC_id], by simp [cWC_id], by simp [cWC_id],
    by simp [cWC_worktree]⟩

/-! ## Frame lemmas: what each successful operation does to the registry,
the branch lists and the counter -/

theorem fileWrite_frame {st st' : SysState} {id ex p c : String}
    (h : FileWrite st id ex p c = .ok st') :
    ∃ e eH, Get st id = some e ∧
      st'.registry = insertL id eH st.registry ∧
      st'.counter = st.counter ∧
      st'.mirrorBranches = st.mirrorBranches ∧
      st'.sourceBranches = st.sourceBranches ∧
      (∀ cm ∈ eH.branchLog, cm ∈ e.branchLog ∨ cm.changes ≠ []) := by
  unfold FileWrite at h
  cases hg : Get st id with
  | none => rw [hg] at h; exact absurd h (by simp)
  | some e =>
    rw [hg] at h
    simp only [Except.ok.injEq] at h
    subst h
    refine ⟨e, _, rfl, rfl, rfl, rfl, rfl, ?_⟩
    intro cm hcm
    have hmem := cWC_branchLog_mem cm hcm
    exact hmem

theorem run_frame {st st' : SysState} {id ex : String} {cmd : Cmd}
    {out : String} (h : Run st id ex cmd = .ok (out, st')) :
    ∃ e eH, Get st id = some e ∧
      st'.registry = insertL id eH st.registry ∧
      st'.counter = st.counter ∧
      st'.mirrorBranches = st.mirrorBranches ∧
      st'.sourceBranches = st.sourceBranches ∧
      (∀ cm ∈ eH.branchLog, cm ∈ e.branchLog ∨ cm.changes ≠ []) := by
  unfold Run at h
  cases hg : Get st id with
  | none => rw [hg] at h; exact absurd h (by simp)
  | some e =>
    rw [hg] at h
    simp only [Except.ok.injEq, Prod.mk.injEq] at h
    obtain ⟨-, h⟩ := h
    subst h
    refine ⟨e, _, rfl, rfl, rfl, rfl, rfl, ?_⟩
    intro cm hcm
    have hmem := cWC_branchLog_mem cm hcm
    exact hmem

theorem setEnv_frame {st st' : SysState} {id ex : String} {vars : List String}
    (h : SetEnv st id ex vars = .ok st') :
    ∃ e eH, Get st id = some e ∧
      st'.registry = insertL id eH st.registry ∧
      st'.counter = st.counter ∧
      st'.mirrorBranches = st.mirrorBranches ∧
      st'.sourceBranches = st.sourceBranches ∧
      st'.dirs = st.dirs ∧
      (∀ cm ∈ eH.branchLog, cm ∈ e.branchLog ∨ cm.changes ≠ []) := by
  unfold SetEnv at h
  cases hg : Get st id with
  | none => rw [hg] at h; exact absurd h (by simp)
  | some e =>
    rw [hg] at h
    simp only [Except.ok.injEq] at h
    subst h
    refine ⟨e, _, rfl, rfl, rfl, rfl, rfl, rfl, ?_⟩
    intro cm hcm
    have hmem := cWC_branchLog_mem cm hcm
    exact hmem

theorem update_frame {st st' : SysState} {id n ex : String}
    {b : Option String} {s : Option (List String)} {v : Option (List String)}
    (h : Update st id n ex b s v = .ok st') :
    ∃ e eH, Get st id = some e ∧
      st'.registry = insertL id eH st.registry ∧
      st'.counter = st.counter ∧
      st'.mirrorBranches = st.mirrorBranches ∧
      st'.sourceBranches = st.sourceBranches ∧
      st'.dirs = st.dirs ∧
      (∀ cm ∈ eH.branchLog, cm ∈ e.branchLog ∨ cm.changes ≠ []) := by
  unfold Update at h
  cases hg : Get st id with
  | none => rw [hg] at h; exact absurd h (by simp)
  | some e =>
    rw [hg] at h
    simp only [Except.ok.injEq] at h
    subst h
    refine ⟨e, _, rfl, rfl, rfl, rfl, rfl, rfl, ?_⟩
    intro cm hcm
    have hmem := cWC_branchLog_mem cm hcm
    exact hmem

theorem upload_frame {st st' : SysState} {id ex src dest : String}
    (h : Upload st id ex src dest = .ok st') :
    ∃ e eH, Get st id = some e ∧
      st'.registry = insertL id eH st.registry ∧
      st'.counter = st.counter ∧
      st'.mirrorBranches = st.mirrorBranches ∧
      st'.sourceBranches = st.sourceBranches ∧
      st'.dirs = st.dirs ∧
      eH.branchLog = e.branchLog := by
  unfold Upload at h
  cases hg : Get st id with
  | none => rw [hg] at h; exact absurd h (by simp)
  | some e =>
    rw [hg] at h
    cases hf : lookupL src st.dirs with
    | none => rw [hf] at h; exact absurd h (by simp)
    | some files =>
      rw [hf] at h
      simp only [Except.ok.injEq] at h
      subst h
      exact ⟨e, _, rfl, rfl, rfl, rfl, rfl, rfl, rfl⟩

theorem delete_frame {st st' : SysState} {id : String}
    (h : Delete st id = .ok st') :
    ∃ e, Get st id = some e ∧
      st'.registry = eraseL id st.registry ∧
      st'.counter = st.counter ∧
      st'.mirrorBranches = st.mirrorBranches ∧
      st'.sourceBranches = insertL e.source
        (((lookupL e.source st.sourceBranches).getD []).filter
          (fun b => decide (b ≠ id))) st.sourceBranches ∧
      st'.dirs = eraseL e.worktree st.dirs := by
  unfold Delete at h
  cases hg : Get st id with
  | none => rw [hg] at h; exact absurd h (by simp)
  | some e =>
    rw [hg] at h
    simp only [Except.ok.injEq] at h
    subst h
    exact ⟨e, rfl, rfl, rfl, rfl, rfl, rfl⟩

theorem create_frame {st st' : SysState} {ex src nm : String}
    {e : Environment} (h : Create st ex src nm = .ok (e, st')) :
    st.counter ≤ e.sfx ∧ st'.counter = e.sfx + 1 ∧
      e.id = slugOf nm ++ "/" ++ sfxString e.sfx ∧
      st'.registry = insertL e.id e st.registry ∧
      st'.mirrorBranches = insertL src
        (e.id :: (lookupL src st.mirrorBranches).getD []) st.mirrorBranches ∧
      st'.sourceBranches = insertL src
        (e.id :: (lookupL src st.sourceBranches).getD []) st.sourceBranches ∧
      (∀ cm ∈ e.branchLog, cm.changes ≠ []) := by
  unfold Create at h
  cases hg : genId nm (usedIds st src) ((usedIds st src).length + 1) st.counter with
  | none => simp only [hg] at h; exact absurd h (by simp)
  | some pair =>
    obtain ⟨id, k⟩ := pair
    simp only [hg, Except.ok.injEq, Prod.mk.injEq] at h
    obtain ⟨hk, hid, -⟩ := genId_some_spec hg
    obtain ⟨he, hst⟩ := h
    subst he
    subst hst
    refine ⟨?_, ?_, ?_, ?_, ?_, ?_, ?_⟩
    · rw [cWC_sfx]; exact hk
    · rw [cWC_sfx]
    · rw [cWC_sfx, cWC_id]; exact hid
    · rw [cWC_id]
    · rw [cWC_id]
    · rw [cWC_id]
    · intro cm hcm
      have hmem := cWC_branchLog_mem cm hcm
      rcases hmem with hin | hne
      · exact absurd hin (by simp)
      · exact hne

/-! ## Preservation of the invariants along runs -/

theorem mem_insertL {α : Type} {p : String × α} {k : String} {v : α}
    {l : List (String × α)} (h : p ∈ insertL k v l) : p = (k, v) ∨ p ∈ l := by
  rcases List.mem_cons.mp h with h | h
  · exact Or.inl h
  · exact Or.inr (eraseL_subset k l p h)

theorem step_counter_le (st : SysState) (op : Op) :
    st.counter ≤ (step st op).counter := by
  cases op with
  | create ex src n =>
    simp only [step]
    cases hC : Create st ex src n with
    | error _ => exact le_refl _
    | ok pair =>
      obtain ⟨e, st'⟩ := pair
      obtain ⟨h₁, h₂, -⟩ := create_frame hC
      dsimp only
      omega
  | fileWrite id ex p c =>
    simp only [step, keepOnError]
    cases hC : FileWrite st id ex p c with
    | error _ => exact le_refl _
    | ok st' =>
      obtain ⟨e, eH, -, -, h, -⟩ := fileWrite_frame hC
      dsimp only
      omega
  | run id ex cmd =>
    simp only [step]
    cases hC : Run st id ex cmd with
    | error _ => exact le_refl _
    | ok pair =>
      obtain ⟨out, st'⟩ := pair
      obtain ⟨e, eH, -, -, h, -⟩ := run_frame hC
      dsimp only
      omega
  | setEnv id ex vars =>
    simp only [step, keepOnError]
    cases hC : SetEnv st id ex vars with
    | error _ => exact le_refl _
    | ok st' =>
      obtain ⟨e, eH, -, -, h, -⟩ := setEnv_frame hC
      dsimp only
      omega
  | update id n ex b s v =>
    simp only [step, keepOnError]
    cases hC : Update st id n ex b s v with
    | error _ => exact le_refl _
    | ok st' =>
      obtain ⟨e, eH, -, -, h, -⟩ := update_frame hC
      dsimp only
      omega
  | upload id ex src dest =>
    simp only [step, keepOnError]
    cases hC : Upload st id ex src dest with
    | error _ => exact le_refl _
    | ok st' =>
      obtain ⟨e, eH, -, -, h, -⟩ := upload_frame hC
      dsimp only
      omega
  | delete id =>
    simp only [step, keepOnError]
    cases hC : Delete st id with
    | error _ => exact le_refl _
    | ok st' =>
      obtain ⟨e, -, -, h, -⟩ := delete_frame hC
      dsimp only
      omega
  | sessionRestart => exact le_refl _
  | hostWrite dir rel f => exact le_refl _
  | hostMkdir dir => exact le_refl _

theorem runOps_counter_le (st : SysState) (ops : List Op) :
    st.counter ≤ (runOps st ops).counter := by
  induction ops generalizing st with
  | nil => exact le_refl _
  | cons op rest ih =>
    exact le_trans (step_counter_le st op) (ih (step st op))

/-- Registered-id shape transfer: a successful mutating operation replaces
one registered environment and keeps all other id-bearing state. -/
theorem idsOk_reg_insert {st st' : SysState} (h : IdsOk st) {id : String}
    {eH : Environment} (hid : IdShaped id st.counter)
    (hreg : st'.registry = insertL id eH st.registry)
    (hc : st'.counter = st.counter)
    (hm : st'.mirrorBranches = st.mirrorBranches)
    (hs : st'.sourceBranches = st.sourceBranches) : IdsOk st' := by
  obtain ⟨hr, hmi, hso⟩ := h
  refine ⟨?_, ?_, ?_⟩
  · intro p hp
    rw [hreg] at hp
    rw [hc]
    rcases mem_insertL hp with h | h
    · rw [h]
      exact hid
    · exact hr p h
  · intro q hq
    rw [hm] at hq
    rw [hc]
    exact hmi q hq
  · intro q hq
    rw [hs] at hq
    rw [hc]
    exact hso q hq

theorem get_shaped {st : SysState} (h : IdsOk st) {id : String}
    {e : Environment} (hg : Get st id = some e) : IdShaped id st.counter :=
  h.1 (id, e) (lookupL_mem hg)

theorem idsOk_step {st : SysState} (h : IdsOk st) (op : Op) :
    IdsOk (step st op) := by
  cases op with
  | create ex src n =>
    simp only [step]
    cases hC : Create st ex src n with
    | error _ => exact h
    | ok pair =>
      obtain ⟨e, st'⟩ := pair
      obtain ⟨hk, hcnt, hid, hreg, hmir, hsrc, -⟩ := create_frame hC
      obtain ⟨hr, hmi, hso⟩ := h
      have hbound : st.counter ≤ e.sfx + 1 := by omega
      have hshape : IdShaped e.id (e.sfx + 1) := ⟨slugOf n, e.sfx, by omega, hid⟩
      refine ⟨?_, ?_, ?_⟩
      · intro p hp
        rw [hreg] at hp
        rw [hcnt]
        rcases mem_insertL hp with hh | hh
        · rw [hh]
          exact hshape
        · exact (hr p hh).mono hbound
      · intro q hq
        rw [hmir] at hq
        rw [hcnt]
        rcases mem_insertL hq with hh | hh
        · rw [hh]
          intro b hb
          rcases List.mem_cons.mp hb with hb | hb
          · rw [hb]; exact hshape
          · cases hl : lookupL src st.mirrorBranches with
            | none => rw [hl] at hb; simp at hb
            | some l =>
              rw [hl] at hb
              exact (hmi (src, l) (lookupL_mem hl) b hb).mono hbound
        · intro b hb
          exact (hmi q hh b hb).mono hbound
      · intro q hq
        rw [hsrc] at hq
        rw [hcnt]
        rcases mem_insertL hq with hh | hh
        · rw [hh]
          intro b hb
          rcases List.mem_cons.mp hb with hb | hb
          · rw [hb]; exact hshape
          · cases hl : lookupL src st.sourceBranches with
            | none => rw [hl] at hb; simp at hb
            | some l =>
              rw [hl] at hb
              exact (hso (src, l) (lookupL_mem hl) b hb).mono hbound
        · intro b hb
          exact (hso q hh b hb).mono hbound
  | fileWrite id ex p c =>
    simp only [step, keepOnError]
    cases hC : FileWrite st id ex p c with
    | error _ => exact h
    | ok st' =>
      obtain ⟨e, eH, hg, hreg, hc, hm, hs, -⟩ := fileWrite_frame hC
      exact idsOk_reg_insert h (get_shaped h hg) hreg hc hm hs
  | run id ex cmd =>
    simp only [step]
    cases hC : Run st id ex cmd with
    | error _ => exact h
    | ok pair =>
      obtain ⟨out, st'⟩ := pair
      obtain ⟨e, eH, hg, hreg, hc, hm, hs, -⟩ := run_frame hC
      exact idsOk_reg_insert h (get_shaped h hg) hreg hc hm hs
  | setEnv id ex vars =>
    simp only [step, keepOnError]
    cases hC : SetEnv st id ex vars with
    | error _ => exact h
    | ok st' =>
      obtain ⟨e, eH, hg, hreg, hc, hm, hs, -⟩ := setEnv_frame hC
      exact idsOk_reg_insert h (get_shaped h hg) hreg hc hm hs
  | update id n ex b s v =>
    simp only [step, keepOnError]
    cases hC : Update st id n ex b s v with
    | error _ => exact h
    | ok st' =>
      obtain ⟨e, eH, hg, hreg, hc, hm, hs, -⟩ := update_frame hC
      exact idsOk_reg_insert h (get_shaped h hg) hreg hc hm hs
  | upload id ex src dest =>
    simp only [step, keepOnError]
    cases hC : Upload st id ex src dest with
    | error _ => exact h
    | ok st' =>
      obtain ⟨e, eH, hg, hreg, hc, hm, hs, -⟩ := upload_frame hC
      exact idsOk_reg_insert h (get_shaped h hg) hreg hc hm hs
  | delete id =>
    simp only [step, keepOnError]
    cases hC : Delete st id with
    | error _ => exact h
    | ok st' =>
      obtain ⟨e, hg, hreg, hc, hm, hs, -⟩ := delete_frame hC
      obtain ⟨hr, hmi, hso⟩ := h
      refine ⟨?_, ?_, ?_⟩
      · intro p hp
        rw [hreg] at hp
        rw [hc]
        exact hr p (eraseL_subset id st.registry p hp)
      · intro q hq
        rw [hm] at hq
        rw [hc]
        exact hmi q hq
      · intro q hq
        rw [hs] at hq
        rw [hc]
        rcases mem_insertL hq with hh | hh
        · rw [hh]
          intro b hb
          have hb' := List.mem_filter.mp hb
          cases hl : lookupL e.source st.sourceBranches with
          | none =>
            rw [hl] at hb'
            simp at hb'
          | some l =>
            rw [hl] at hb'
            exact hso (e.source, l) (lookupL_mem hl) b hb'.1
        · intro b hb
          exact hso q hh b hb
  | sessionRestart =>
    obtain ⟨hr, hmi, hso⟩ := h
    exact ⟨by intro p hp; simp [step] at hp, hmi, hso⟩
  | hostWrite dir rel f =>
    obtain ⟨hr, hmi, hso⟩ := h
    exact ⟨hr, hmi, hso⟩
  | hostMkdir dir =>
    obtain ⟨hr, hmi, hso⟩ := h
    exact ⟨hr, hmi, hso⟩

theorem idsOk_runOps {st : SysState} (h : IdsOk st) (ops : List Op) :
    IdsOk (runOps st ops) := by
  induction ops generalizing st with
  | nil => exact h
  | cons op rest ih => exact ih (idsOk_step h op)

theorem idsOk_initState : IdsOk initState := by
  refine ⟨?_, ?_, ?_⟩ <;> intro p hp <;> simp [initState] at hp

/-- Spec §4.1 / §8 invariant: no registered environment's branch carries an
empty commit. -/
def NoEmptyCommits (st : SysState) : Prop :=
  ∀ p ∈ st.registry, ∀ c ∈ p.2.branchLog, c.changes ≠ []

theorem nec_reg_insert {st st' : SysState} (h : NoEmptyCommits st)
    {id : String} {e eH : Environment}
    (hg : Get st id = some e)
    (hlog : ∀ cm ∈ eH.branchLog, cm ∈ e.branchLog ∨ cm.changes ≠ [])
    (hreg : st'.registry = insertL id eH st.registry) : NoEmptyCommits st' := by
  intro p hp c hc
  rw [hreg] at hp
  rcases mem_insertL hp with hh | hh
  · subst hh
    rcases hlog c hc with hin | hne
    · exact h (id, e) (lookupL_mem hg) c hin
    · exact hne
  · exact h p hh c hc

theorem nec_step {st : SysState} (h : NoEmptyCommits st) (op : Op) :
    NoEmptyCommits (step st op) := by
  cases op with
  | create ex src n =>
    simp only [step]
    cases hC : Create st ex src n with
    | error _ => exact h
    | ok pair =>
      obtain ⟨e, st'⟩ := pair
      obtain ⟨-, -, -, hreg, -, -, hlog⟩ := create_frame hC
      intro p hp c hc
      rw [hreg] at hp
      rcases mem_insertL hp with hh | hh
      · subst hh
        exact hlog c hc
      · exact h p hh c hc
  | fileWrite id ex p c =>
    simp only [step, keepOnError]
    cases hC : FileWrite st id ex p c with
    | error _ => exact h
    | ok st' =>
      obtain ⟨e, eH, hg, hreg, -, -, -, hlog⟩ := fileWrite_frame hC
      exact nec_reg_insert h hg hlog hreg
  | run id ex cmd =>
    simp only [step]
    cases hC : Run st id ex cmd with
    | error _ => exact h
    | ok pair =>
      obtain ⟨out, st'⟩ := pair
      obtain ⟨e, eH, hg, hreg, -, -, -, hlog⟩ := run_frame hC
      exact nec_reg_insert h hg hlog hreg
  | setEnv id ex vars =>
    simp only [step, keepOnError]
    cases hC : SetEnv st id ex vars with
    | error _ => exact h
    | ok st' =>
      obtain ⟨e, eH, hg, hreg, -, -, -, -, hlog⟩ := setEnv_frame hC
      exact nec_reg_insert h hg hlog hreg
  | update id n ex b s v =>
    simp only [step, keepOnError]
    cases hC : Update st id n ex b s v with
    | error _ => exact h
    | ok st' =>
      obtain ⟨e, eH, hg, hreg, -, -, -, -, hlog⟩ := update_frame hC
      exact nec_reg_insert h hg hlog hreg
  | upload id ex src dest =>
    simp only [step, keepOnError]
    cases hC : Upload st id ex src dest with
    | error _ => exact h
    | ok st' =>
      obtain ⟨e, eH, hg, hreg, -, -, -, -, hlog⟩ := upload_frame hC
      exact nec_reg_insert h hg
        (fun cm hcm => Or.inl (hlog ▸ hcm)) hreg
  | delete id =>
    simp only [step, keepOnError]
    cases hC : Delete st id with
    | error _ => exact h
    | ok st' =>
      obtain ⟨e, -, hreg, -, -, -, -⟩ := delete_frame hC
      intro p hp c hc
      rw [hreg] at hp
      exact h p (eraseL_subset id st.registry p hp) c hc
  | sessionRestart =>
    intro p hp
    simp [step] at hp
  | hostWrite dir rel f => exact fun p hp c hc => h p hp c hc
  | hostMkdir dir => exact fun p hp c hc => h p hp c hc

theorem nec_runOps {st : SysState} (h : NoEmptyCommits st) (ops : List Op) :
    NoEmptyCommits (runOps st ops) := by
  induction ops generalizing st with
  | nil => exact h
  | cons op rest ih => exact ih (nec_step h op)

theorem nec_initState : NoEmptyCommits initState := by
  intro p hp
  simp [initState] at hp

/-! ## Claims -/

/-- C9: `parseLogLevel` returns the level named by the string for
`debug`/`info`/`warn`/`error` in lower or upper case, accepts `warning`
(and `WARNING`) for warn, and returns the info level for every other
string, so the effective default of `CU_LOG_LEVEL` (unset reads as the
empty string) is info. -/
theorem parseLogLevel_cases (s : String) :
    ((s = "debug" ∨ s = "DEBUG") → parseLogLevel s = LogLevel.debug) ∧
    ((s = "info" ∨ s = "INFO") → parseLogLevel s = LogLevel.info) ∧
    ((s = "warn" ∨ s = "WARN" ∨ s = "warning" ∨ s = "WARNING") →
      parseLogLevel s = LogLevel.warn) ∧
    ((s = "error" ∨ s = "ERROR") → parseLogLevel s = LogLevel.error) ∧
    (s ∉ ["debug", "DEBUG", "info", "INFO", "warn", "WARN", "warning",
        "WARNING", "error", "ERROR"] → parseLogLevel s = LogLevel.info) ∧
    parseLogLevel "" = LogLevel.info := by
  refine ⟨?_, ?_, ?_, ?_, ?_, by decide⟩
  · rintro (rfl | rfl) <;> decide
  · rintro (rfl | rfl) <;> decide
  · rintro (rfl | rfl | rfl | rfl) <;> decide
  · rintro (rfl | rfl) <;> decide
  · intro h
    simp only [List.mem_cons, List.not_mem_nil, or_false, not_or] at h
    obtain ⟨h₁, h₂, h₃, h₄, h₅, h₆, h₇, h₈, h₉, h₀⟩ := h
    simp [parseLogLevel, h₁, h₂, h₃, h₄, h₅, h₆, h₇, h₈, h₉, h₀]

theorem parseLogLevel_cases_witness :
    parseLogLevel "warning" = LogLevel.warn ∧
    parseLogLevel "LEVEL" = LogLevel.info ∧
    parseLogLevel "DEBUG" = LogLevel.debug :=
  ⟨(parseLogLevel_cases "warning").2.2.1 (Or.inr (Or.inr (Or.inl rfl))),
   (parseLogLevel_cases "LEVEL").2.2.2.2.1 (by decide),
   (parseLogLevel_cases "DEBUG").1 (Or.inr rfl)⟩

/-- C10: `setupLogger` returns an error exactly when `CU_STDERR_FILE` is
set (nonempty) and the file cannot be opened for append; every successful
run installs a logger whose sinks include stderr; on error the current
default logger is left in place. -/
theorem setupLogger_spec (getenv : String → String)
    (openAppend : String → Bool) (current : Logger) :
    ((setupLogger getenv openAppend current).2 ≠ none ↔
      getenv "CU_STDERR_FILE" ≠ "" ∧
        openAppend (getenv "CU_STDERR_FILE") = false) ∧
    ((setupLogger getenv openAppend current).2 = none →
      Sink.stderr ∈ (setupLogger getenv openAppend current).1.sinks) ∧
    ((setupLogger getenv openAppend current).2 ≠ none →
      (setupLogger getenv openAppend current).1 = current) := by
  by_cases hset : getenv "CU_STDERR_FILE" = ""
  · have hval : setupLogger getenv openAppend current =
        ({ sinks := [Sink.stderr],
           level := parseLogLevel (getenv "CU_LOG_LEVEL") }, none) := by
      simp [setupLogger, hset]
    rw [hval]
    refine ⟨by simp [hset], by simp, by simp⟩
  · by_cases hopen : openAppend (getenv "CU_STDERR_FILE") = true
    · have hval : setupLogger getenv openAppend current =
          ({ sinks := [Sink.stderr, Sink.file (getenv "CU_STDERR_FILE")],
             level := parseLogLevel (getenv "CU_LOG_LEVEL") }, none) := by
        simp [setupLogger, hset, hopen]
      rw [hval]
      refine ⟨by simp [hopen], by simp, by simp⟩
    · have hopen' : openAppend (getenv "CU_STDERR_FILE") = false := by
        revert hopen
        cases openAppend (getenv "CU_STDERR_FILE") <;> simp
      have hval : setupLogger getenv openAppend current =
          (current,
            some ("failed to open log file " ++ getenv "CU_STDERR_FILE")) := by
        simp [setupLogger, hset, hopen']
      rw [hval]
      refine ⟨by simp [hset, hopen'], by simp, by simp⟩

theorem setupLogger_spec_witness :
    ((setupLogger (fun v => if v = "CU_STDERR_FILE" then "/var/log/cu" else "")
        (fun _ => false) ⟨[Sink.stderr], LogLevel.info⟩).1 =
      ⟨[Sink.stderr], LogLevel.info⟩) ∧
    Sink.stderr ∈ (setupLogger (fun _ => "") (fun _ => true)
        ⟨[], LogLevel.warn⟩).1.sinks :=
  ⟨(setupLogger_spec (fun v => if v = "CU_STDERR_FILE" then "/var/log/cu" else "")
      (fun _ => false) ⟨[Sink.stderr], LogLevel.info⟩).2.2 (by decide),
   (setupLogger_spec (fun _ => "") (fun _ => true) ⟨[], LogLevel.warn⟩).2.1
      (by decide)⟩

/-! ### Demo state shared by the witnesses -/

def demoRepo : String := "/home/user/project"

def demoSt : SysState :=
  runOps initState
    [Op.hostWrite demoRepo "README.md" ⟨"hello", false⟩,
     Op.create "Test environment" demoRepo "dev",
     Op.create "Staging environment" demoRepo "staging"]

def demoDevId : String := "dev/w"

def demoStgId : String := "staging/wo"

def fallbackEnv : Environment :=
  { id := "", sfx := 0, name := "", explanation := "", source := "",
    worktree := "", baseImage := "", setupCommands := [], envVars := [],
    containerFS := [], containerEnv := [], headTree := [], branchLog := [],
    history := [] }

def demoDev : Environment :=
  match Get demoSt demoDevId with
  | some e => e
  | none => fallbackEnv

def demoStg : Environment :=
  match Get demoSt demoStgId with
  | some e => e
  | none => fallbackEnv

/-- C6: when staging finds no staged changes (for instance a worktree of
empty directories, which contributes no regular files), `commitWorktreeChanges`
succeeds while leaving the branch log untouched; consequently, after any
sequence of operations from the initial state, no environment branch carries
an empty commit. -/
theorem commitWorktreeChanges_no_empty :
    (∀ (e : Environment) (wt : DirContents) (n x : String),
      stagedChanges wt e.headTree = [] → commitWorktreeChanges e wt n x = e) ∧
    (∀ ops : List Op, NoEmptyCommits (runOps initState ops)) :=
  ⟨fun _ _ _ _ h => cWC_eq_of_empty h,
   fun ops => nec_runOps nec_initState ops⟩

theorem commitWorktreeChanges_no_empty_witness :
    commitWorktreeChanges fallbackEnv [] "Test" "Empty dirs" = fallbackEnv ∧
    NoEmptyCommits demoSt :=
  ⟨commitWorktreeChanges_no_empty.1 fallbackEnv [] "Test" "Empty dirs" rfl,
   commitWorktreeChanges_no_empty.2
     [Op.hostWrite demoRepo "README.md" ⟨"hello", false⟩,
      Op.create "Test environment" demoRepo "dev",
      Op.create "Staging environment" demoRepo "staging"]⟩

/-- C8: a successful `Delete` removes the environment's worktree directory
from disk and its registry entry (`Get` then returns none), deletes the
branch from the source repo's branch list, and leaves the mirror's branch
lists — hence the environment's mirror branch — untouched. -/
theorem delete_removes_worktree_keeps_mirror (st : SysState) (id : String)
    (e : Environment) (h : Get st id = some e) :
    ∃ st', Delete st id = .ok st' ∧
      lookupL e.worktree st'.dirs = none ∧
      Get st' id = none ∧
      st'.mirrorBranches = st.mirrorBranches ∧
      id ∉ ((lookupL e.source st'.sourceBranches).getD []) := by
  simp only [Delete, h]
  refine ⟨_, rfl, ?_, ?_, rfl, ?_⟩
  · exact lookupL_eraseL_self e.worktree st.dirs
  · exact lookupL_eraseL_self id st.registry
  · simp only [lookupL_insertL_self, Option.getD_some]
    intro hmem
    have := (List.mem_filter.mp hmem).2
    simp at this

theorem delete_removes_worktree_keeps_mirror_witness :
    ∃ st', Delete demoSt demoDevId = .ok st' ∧
      lookupL demoDev.worktree st'.dirs = none ∧
      Get st' demoDevId = none ∧
      st'.mirrorBranches = demoSt.mirrorBranches ∧
      demoDevId ∉ ((lookupL demoDev.source st'.sourceBranches).getD []) :=
  delete_removes_worktree_keeps_mirror demoSt demoDevId demoDev rfl

/-- The worktree of end-to-end scenario 5: a text file at top level, a
binary-only `__pycache__` directory, and a mixed directory `mydir`. -/
def pycacheWt : DirContents :=
  [("main.py", ⟨"print hello", false⟩),
   ("__pycache__/main.cpython-39.pyc", ⟨"pyc", true⟩),
   ("mydir/readme.txt", ⟨"Documentation", false⟩),
   ("mydir/image.jpg", ⟨"jpg", true⟩)]

/-- C2: `addNonBinaryFiles` stages exactly the text files: every non-binary
file is staged wherever it sits — in particular text files inside
otherwise-binary-only directories — and everything staged comes from a
non-binary file, so binary files and binary-only directories are skipped;
on the scenario worktree the porcelain status contains `A  main.py` and
`A  mydir/readme.txt` and contains neither `A  __pycache__` nor
`A  mydir/image.jpg`. -/
theorem addNonBinaryFiles_selective :
    (∀ (wt : DirContents) (p : String) (f : File),
        (p, f) ∈ wt → f.binary = false →
        (p, f.content) ∈ addNonBinaryFiles wt) ∧
    (∀ (wt : DirContents) (head : List (String × String)) (p c : String),
        lookupL p wt = some ⟨c, false⟩ → lookupL p head ≠ some c →
        (p, c) ∈ stagedChanges wt head) ∧
    (∀ (wt : DirContents) (head : List (String × String)) (p c : String),
        (p, c) ∈ stagedChanges wt head →
        ∃ f : File, (p, f) ∈ wt ∧ f.binary = false ∧ f.content = c) ∧
    (statusHas (statusLines pycacheWt []) "A  main.py" = true ∧
     statusHas (statusLines pycacheWt []) "A  mydir/readme.txt" = true ∧
     statusHas (statusLines pycacheWt []) "A  __pycache__" = false ∧
     statusHas (statusLines pycacheWt []) "A  mydir/image.jpg" = false) := by
  refine ⟨?_, ?_, ?_, by decide⟩
  · intro wt p f hmem hbin
    simp only [addNonBinaryFiles]
    exact List.mem_filterMap.mpr ⟨(p, f), hmem, by simp [hbin]⟩
  · intro wt head p c hl hne
    have hmem : (p, c) ∈ addNonBinaryFiles wt := by
      simp only [addNonBinaryFiles]
      exact List.mem_filterMap.mpr ⟨(p, ⟨c, false⟩), lookupL_mem hl, by simp⟩
    exact List.mem_filter.mpr ⟨hmem, decide_eq_true hne⟩
  · intro wt head p c hm
    have hm2 := (List.mem_filter.mp hm).1
    simp only [addNonBinaryFiles] at hm2
    obtain ⟨⟨q, f⟩, hin, hf⟩ := List.mem_filterMap.mp hm2
    by_cases hb : f.binary
    · simp [hb] at hf
    · simp only [Bool.not_eq_true] at hb
      simp only [hb, Bool.false_eq_true, if_neg, ite_false] at hf
      obtain ⟨rfl, rfl⟩ := Prod.mk.injEq .. ▸ Option.some.injEq .. ▸ hf
      exact ⟨f, hin, hb, rfl⟩

theorem addNonBinaryFiles_selective_witness :
    ("main.py", "print hello") ∈ addNonBinaryFiles pycacheWt ∧
    ("mydir/readme.txt", "Documentation") ∈ stagedChanges pycacheWt [] ∧
    (∃ f : File, ("main.py", f) ∈ pycacheWt ∧ f.binary = false ∧
      f.content = "print hello") :=
  ⟨addNonBinaryFiles_selective.1 pycacheWt "main.py" ⟨"print hello", false⟩
      (by decide) rfl,
   addNonBinaryFiles_selective.2.1 pycacheWt [] "mydir/readme.txt"
      "Documentation" (by decide) (by decide),
   addNonBinaryFiles_selective.2.2.1 pycacheWt [] "main.py" "print hello"
      (by decide)⟩

theorem readWindow_zero (s : String) : readWindow s 0 0 = s := by
  simp [readWindow, strMk_data]

/-- C7: `FileWrite(p, c)` followed by `FileRead(p)` returns `c` (in text
mode whenever `c` carries no trailing line ending, and in raw mode always);
the written contents are on disk in the worktree, and they are still there
after the in-memory registry is cleared by a session restart. -/
theorem fileWrite_fileRead_roundtrip (st : SysState) (id expl p c : String)
    (e : Environment) (h : Get st id = some e)
    (hclean : stripTrailingNewlines c = c) :
    ∃ st', FileWrite st id expl p c = .ok st' ∧
      FileRead st' id p true 0 0 = .ok c ∧
      FileRead st' id p false 0 0 = .ok c ∧
      lookupL p (st'.dirFiles e.worktree) = some ⟨c, false⟩ ∧
      lookupL p ((step st' Op.sessionRestart).dirFiles e.worktree) =
        some ⟨c, false⟩ ∧
      (step st' Op.sessionRestart).registry = [] := by
  simp only [FileWrite, h]
  refine ⟨_, rfl, ?_, ?_, ?_, ?_, rfl⟩
  · simp only [FileRead, Get, lookupL_insertL_self, cWC_containerFS,
      lookupL_insertL_self, readWindow_zero, hclean]
    simp
  · simp only [FileRead, Get, lookupL_insertL_self, cWC_containerFS,
      lookupL_insertL_self, readWindow_zero]
    simp
  · simp only [SysState.dirFiles, cWC_worktree, lookupL_insertL_self,
      Option.getD_some]
  · simp only [step, SysState.dirFiles, cWC_worktree, lookupL_insertL_self,
      Option.getD_some]

theorem fileWrite_fileRead_roundtrip_witness :
    ∃ st', FileWrite demoSt demoDevId "Create config" "config.yaml"
        "host: localhost" = .ok st' ∧
      FileRead st' demoDevId "config.yaml" true 0 0 = .ok "host: localhost" ∧
      FileRead st' demoDevId "config.yaml" false 0 0 = .ok "host: localhost" ∧
      lookupL "config.yaml" (st'.dirFiles demoDev.worktree) =
        some ⟨"host: localhost", false⟩ ∧
      lookupL "config.yaml"
          ((step st' Op.sessionRestart).dirFiles demoDev.worktree) =
        some ⟨"host: localhost", false⟩ ∧
      (step st' Op.sessionRestart).registry = [] :=
  fileWrite_fileRead_roundtrip demoSt demoDevId "Create config" "config.yaml"
    "host: localhost" demoDev rfl (by decide)

/-- Models `git log --oneline` on an environment's branch, as commit names. -/
def gitLog (st : SysState) (id : String) : List String :=
  match Get st id with
  | some e => e.branchLog.map Commit.name
  | none => []

theorem stagedChanges_insert_text {wt : DirContents}
    {head : List (String × String)} {p c : String}
    (h : lookupL p head ≠ some c) :
    stagedChanges (insertL p ⟨c, false⟩ wt) head =
      (p, c) :: stagedChanges (eraseL p wt) head := by
  simp [stagedChanges, addNonBinaryFiles, insertL, List.filterMap_cons,
    List.filter_cons, h]

/-- C4: a `FileWrite` against one environment leaves every other registered
environment untouched: the other environment's registry entry is unchanged,
`FileRead` of the written path there returns `NotFound`, the write's commit
`Write <path>` appears on the writer's branch log and not on the other
branch's log. -/
theorem fileWrite_isolation (st : SysState) (devId stgId : String)
    (dev stg : Environment) (expl p c : String)
    (hdev : Get st devId = some dev) (hstg : Get st stgId = some stg)
    (hne : devId ≠ stgId)
    (hnofile : lookupL p stg.containerFS = none)
    (hnolog : ("Write " ++ p) ∉ stg.branchLog.map Commit.name)
    (hchanged : lookupL p dev.headTree ≠ some c) :
    ∃ st', FileWrite st devId expl p c = .ok st' ∧
      Get st' stgId = some stg ∧
      FileRead st' stgId p true 0 0 = .error ("NotFound: " ++ p) ∧
      ("Write " ++ p) ∈ gitLog st' devId ∧
      ("Write " ++ p) ∉ gitLog st' stgId := by
  have hchg : stagedChanges (insertL p ⟨c, false⟩ (st.dirFiles dev.worktree))
      dev.headTree ≠ [] := by
    rw [stagedChanges_insert_text hchanged]
    exact List.cons_ne_nil _ _
  have hstg' : lookupL stgId st.registry = some stg := hstg
  simp only [FileWrite, hdev]
  refine ⟨_, rfl, ?_, ?_, ?_, ?_⟩
  · simp only [Get]
    rw [lookupL_insertL_ne _ _ hne]
    exact hstg'
  · simp only [FileRead, Get]
    rw [lookupL_insertL_ne _ _ hne]
    simp only [hstg', hnofile]
  · simp only [gitLog, Get, lookupL_insertL_self]
    simp only [commitWorktreeChanges]
    rw [if_neg hchg]
    simp
  · simp only [gitLog, Get]
    rw [lookupL_insertL_ne _ _ hne]
    simp only [hstg']
    exact hnolog

theorem fileWrite_isolation_witness :
    ∃ st', FileWrite demoSt demoDevId "Dev config" "config.dev.json"
        "dev cfg" = .ok st' ∧
      Get st' demoStgId = some demoStg ∧
      FileRead st' demoStgId "config.dev.json" true 0 0 =
        .error ("NotFound: " ++ "config.dev.json") ∧
      ("Write " ++ "config.dev.json") ∈ gitLog st' demoDevId ∧
      ("Write " ++ "config.dev.json") ∉ gitLog st' demoStgId :=
  fileWrite_isolation demoSt demoDevId demoStgId demoDev demoStg "Dev config"
    "config.dev.json" "dev cfg" rfl rfl (by decide) (by decide) (by decide)
    (by decide)

/-- C3: environment variables set through `SetEnv` stay exported in the
container after a subsequent `Update` with the same base image and setup
commands and nil env: `echo $VAR` still prints each previously set value
(the first `KEY=VALUE` binding of `VAR`). -/
theorem setEnv_survives_update (st : SysState) (id : String)
    (e : Environment) (vars : List String) (v val : String)
    (h : Get st id = some e) (hv : envLookup v vars = some val) :
    ∃ st₁, SetEnv st id "Configure app" vars = .ok st₁ ∧
      ∃ st₂, Update st₁ id "Rebuild" "Rebuild container" (some e.baseImage)
        (some e.setupCommands) none = .ok st₂ ∧
      ∃ stF, Run st₂ id "Check var" (Cmd.echoVar v) = .ok (val, stF) := by
  simp only [SetEnv, h]
  refine ⟨_, rfl, ?_⟩
  simp only [Update, Get, lookupL_insertL_self]
  refine ⟨_, rfl, ?_⟩
  simp only [Run, Get, lookupL_insertL_self, execCmd, cWC_containerEnv,
    cWC_envVars, Option.getD_some, hv]
  exact ⟨_, rfl⟩

theorem setEnv_survives_update_witness :
    ∃ st₁, SetEnv demoSt demoDevId "Configure app"
        ["API_URL=https://api.example.com", "PORT=3000"] = .ok st₁ ∧
      ∃ st₂, Update st₁ demoDevId "Rebuild" "Rebuild container"
        (some demoDev.baseImage) (some demoDev.setupCommands) none = .ok st₂ ∧
      ∃ stF, Run st₂ demoDevId "Check var" (Cmd.echoVar "PORT") =
        .ok ("3000", stF) :=
  setEnv_survives_update demoSt demoDevId demoDev
    ["API_URL=https://api.example.com", "PORT=3000"] "PORT" "3000" rfl
    (by decide)

/-- Substring occurrence in a command's captured output. -/
def containsStr (hay sub : String) : Prop := ∃ a b, hay = a ++ sub ++ b

theorem upload_fold_lookup (dest q : String) (files cfs : DirContents) :
    lookupL (dest ++ "/" ++ q)
        (files.foldr
          (fun pf acc => insertL (dest ++ "/" ++ pf.1) pf.2 acc) cfs) =
      (match lookupL q files with
       | some f => some f
       | none => lookupL (dest ++ "/" ++ q) cfs) := by
  induction files with
  | nil => rfl
  | cons pf rest ih =>
    obtain ⟨p₁, f₁⟩ := pf
    by_cases hp : p₁ = q
    · subst hp
      simp only [List.foldr_cons, lookupL_insertL_self, lookupL]
      simp
    · have hkey : dest ++ "/" ++ p₁ ≠ dest ++ "/" ++ q :=
        fun hEq => hp (strAppend_cancel_left hEq)
      simp only [List.foldr_cons]
      rw [lookupL_insertL_ne _ _ hkey, ih]
      simp only [lookupL, if_neg hp]

/-- C1: operations taking a host directory as input observe its contents as
of the call, never cached content.  Rebuild coherence: after
`FileWrite("script.sh", "echo Version 2")` and an `Update` with the same
base image and setup commands, `Run("sh script.sh")` outputs text containing
`Version 2`.  Upload freshness: uploading a directory, overwriting a file in
it on the host, and uploading again makes `FileRead` of the uploaded path
return the new contents, and no longer the old ones. -/
theorem host_directory_freshness (st : SysState) (id : String)
    (e : Environment) (h : Get st id = some e) :
    (∃ st₁, FileWrite st id "Update script" "script.sh" "echo Version 2" =
        .ok st₁ ∧
      ∃ st₂, Update st₁ id "Rebuild" "Force rebuild" (some e.baseImage)
          (some e.setupCommands) none = .ok st₂ ∧
      ∃ out stF, Run st₂ id "Test script" (Cmd.shScript "script.sh") =
          .ok (out, stF) ∧ containsStr out "Version 2") ∧
    (∀ d rel c₁ c₂ dest : String,
      ∃ stA, Upload (step st (Op.hostWrite d rel ⟨c₁, false⟩)) id "Upload v1"
          d dest = .ok stA ∧
        FileRead stA id (dest ++ "/" ++ rel) false 0 0 = .ok c₁ ∧
        ∃ stC, Upload (step stA (Op.hostWrite d rel ⟨c₂, false⟩)) id
            "Upload v2" d dest = .ok stC ∧
          FileRead stC id (dest ++ "/" ++ rel) false 0 0 = .ok c₂ ∧
          (c₂ ≠ c₁ →
            FileRead stC id (dest ++ "/" ++ rel) false 0 0 ≠ .ok c₁)) := by
  constructor
  · simp only [FileWrite, h]
    refine ⟨_, rfl, ?_⟩
    simp only [Update, Get, lookupL_insertL_self, cWC_worktree,
      SysState.dirFiles]
    refine ⟨_, rfl, ?_⟩
    simp only [Run, Get, lookupL_insertL_self, execCmd, cWC_containerFS,
      SysState.dirFiles, lookupL_insertL_self]
    refine ⟨interpScript "echo Version 2", _, rfl, "", "", by decide⟩
  · intro d rel c₁ c₂ dest
    have h' : lookupL id st.registry = some e := h
    simp only [step, Upload, Get, h', SysState.dirFiles, lookupL_insertL_self]
    refine ⟨_, rfl, ?_, ?_⟩
    · simp only [FileRead, Get, lookupL_insertL_self, upload_fold_lookup,
        lookupL_insertL_self, readWindow_zero]
      simp
    · simp only [Upload, Get, lookupL_insertL_self, SysState.dirFiles]
      refine ⟨_, rfl, ?_, ?_⟩
      · simp only [FileRead, Get, lookupL_insertL_self, upload_fold_lookup,
          lookupL_insertL_self, readWindow_zero]
        simp
      · intro hne
        simp only [FileRead, Get, lookupL_insertL_self, upload_fold_lookup,
          lookupL_insertL_self, readWindow_zero]
        simp [Except.ok.injEq, hne]

theorem host_directory_freshness_witness :
    (∃ st₁, FileWrite demoSt demoDevId "Update script" "script.sh"
        "echo Version 2" = .ok st₁ ∧
      ∃ st₂, Update st₁ demoDevId "Rebuild" "Force rebuild"
          (some demoDev.baseImage) (some demoDev.setupCommands) none =
          .ok st₂ ∧
      ∃ out stF, Run st₂ demoDevId "Test script"
          (Cmd.shScript "script.sh") = .ok (out, stF) ∧
        containsStr out "Version 2") ∧
    (∀ d rel c₁ c₂ dest : String,
      ∃ stA, Upload (step demoSt (Op.hostWrite d rel ⟨c₁, false⟩)) demoDevId
          "Upload v1" d dest = .ok stA ∧
        FileRead stA demoDevId (dest ++ "/" ++ rel) false 0 0 = .ok c₁ ∧
        ∃ stC, Upload (step stA (Op.hostWrite d rel ⟨c₂, false⟩)) demoDevId
            "Upload v2" d dest = .ok stC ∧
          FileRead stC demoDevId (dest ++ "/" ++ rel) false 0 0 = .ok c₂ ∧
          (c₂ ≠ c₁ →
            FileRead stC demoDevId (dest ++ "/" ++ rel) false 0 0 ≠
              .ok c₁)) :=
  host_directory_freshness demoSt demoDevId demoDev rfl

/-- C5: under the freshness invariant, `Create` succeeds, yields an id of
the form `<name>/<suffix>`, and any later `Create` with the same name
against the same source — after any operations in between, including a
`Delete` of the first environment and host mutations leaving stale worktree
directories — also succeeds and yields a distinct id and a distinct
worktree path. -/
theorem create_ids_distinct (st : SysState) (ex₁ src name : String)
    (h : IdsOk st) :
    ∃ e₁ st₁, Create st ex₁ src name = .ok (e₁, st₁) ∧
      (∃ j₁, e₁.id = slugOf name ++ "/" ++ sfxString j₁) ∧
      ∀ (ops : List Op) (ex₂ : String),
        ∃ e₂ st₂, Create (runOps st₁ ops) ex₂ src name = .ok (e₂, st₂) ∧
          (∃ j₂, e₂.id = slugOf name ++ "/" ++ sfxString j₂) ∧
          e₁.id ≠ e₂.id ∧ e₁.worktree ≠ e₂.worktree := by
  obtain ⟨e₁, st₁, hC1, hid1, hsfx1, hwt1, -, hcnt1, -⟩ := create_ok h ex₁ src name
  have hInv1 : IdsOk st₁ := by
    have hstep := idsOk_step h (Op.create ex₁ src name)
    simpa only [step, hC1] using hstep
  refine ⟨e₁, st₁, hC1, ⟨st.counter, hid1⟩, ?_⟩
  intro ops ex₂
  have hInvM : IdsOk (runOps st₁ ops) := idsOk_runOps hInv1 ops
  have hcntM : st₁.counter ≤ (runOps st₁ ops).counter := runOps_counter_le st₁ ops
  obtain ⟨e₂, st₂, hC2, hid2, hsfx2, hwt2, -, -, -⟩ := create_ok hInvM ex₂ src name
  have hidne : e₁.id ≠ e₂.id := by
    intro heq
    rw [hid1, hid2] at heq
    have := idSplit heq
    omega
  refine ⟨e₂, st₂, hC2, ⟨(runOps st₁ ops).counter, hid2⟩, hidne, ?_⟩
  intro heq
  rw [hwt1, hwt2] at heq
  simp only [wtPath] at heq
  exact hidne (strAppend_cancel_left heq)

theorem create_ids_distinct_witness :
    ∃ e₁ st₁, Create demoSt "My App" demoRepo "myapp" = .ok (e₁, st₁) ∧
      (∃ j₁, e₁.id = slugOf "myapp" ++ "/" ++ sfxString j₁) ∧
      ∀ (ops : List Op) (ex₂ : String),
        ∃ e₂ st₂, Create (runOps st₁ ops) ex₂ demoRepo "myapp" =
            .ok (e₂, st₂) ∧
          (∃ j₂, e₂.id = slugOf "myapp" ++ "/" ++ sfxString j₂) ∧
          e₁.id ≠ e₂.id ∧ e₁.worktree ≠ e₂.worktree :=
  create_ids_distinct demoSt "My App" demoRepo "myapp"
    (idsOk_runOps idsOk_initState
      [Op.hostWrite demoRepo "README.md" ⟨"hello", false⟩,
       Op.create "Test environment" demoRepo "dev",
       Op.create "Staging environment" demoRepo "staging"])

end ContainerUse
